import Mathlib

/-!
Shallow embedding of `healthcheck/healthcheck.py` (py-healthcheck).

Modelling conventions:
* Python `time.time()` values, TTLs and durations are drawn from an abstract
  time type `τ`, a linearly ordered type with `0` and `+` (the source stores
  float seconds; every claim is about ordering and addition of times, so it
  is stated over any such `τ`, and concrete witnesses instantiate `τ := ℤ`).
  The 6-decimal formatting of `response_time` is display precision only and
  is not modelled.
* A probe invocation is described by an `Invocation`: what the call does
  (`ProbeOutcome`: return a `(passed, output)` pair, or raise an exception
  whose `str` is a message) and how long it takes.  The behaviour of the
  probe attached to a handle is given by an environment `Checker → Invocation τ`.
* Python `dict`s (`HealthCheckMonitor.checkers`, `HealthCheck.cache`,
  `HealthCheck.functions`) are association lists with insert-or-overwrite
  keeping insertion order, exactly Python `d[k] = v` / `d.get(k)` semantics.
* A `Checker` handle is identified by a numeric identity `id` (Python object
  identity: `Checker` defines no `__eq__`/`__hash__`, so dict keys compare by
  identity) together with its `name`.
* The global mutable registry `HealthCheckMonitor.checkers` is threaded
  explicitly: `run` receives the registry and reports the registry it leaves
  behind (the source's `run` only reads it through `get_checkers`).
* Exceptions are explicit: fallible evaluation returns `Except String`,
  where the `String` is `str(e)`.
-/

/-- Python `dict.get(k)`: first (unique, by construction) binding of `k`. -/
def assocGet {κ ν : Type} [DecidableEq κ] (m : List (κ × ν)) (k : κ) : Option ν :=
  match m with
  | [] => none
  | p :: rest => if p.1 = k then some p.2 else assocGet rest k

/-- Python `d[k] = v`: overwrite in place keeping insertion order, append if new. -/
def assocPut {κ ν : Type} [DecidableEq κ] (m : List (κ × ν)) (k : κ) (v : ν) :
    List (κ × ν) :=
  match m with
  | [] => [(k, v)]
  | p :: rest => if p.1 = k then (k, v) :: rest else p :: assocPut rest k v

/-- A registered probe handle (`Checker` object): object identity plus its name. -/
structure Checker where
  id : Nat
  name : String
deriving DecidableEq, Repr

/-- What one invocation of the wrapped probe does: return `(passed, output)`,
or raise an exception with the given `str(e)`. -/
inductive ProbeOutcome where
  | ok (passed : Bool) (output : String)
  | exn (msg : String)
deriving DecidableEq, Repr

/-- One invocation of a probe: its outcome and the wall time it would take to
run to completion. -/
structure Invocation (τ : Type) where
  outcome : ProbeOutcome
  duration : τ
deriving DecidableEq, Repr

/-- The result dict built by `HealthCheck.run_check` (spec `CheckResult`). -/
structure CheckResult (τ : Type) where
  checker : String
  output : String
  passed : Bool
  timestamp : τ
  expires : τ
  response_time : τ
deriving DecidableEq, Repr

/-- `basic_exception_handler(_, e)`: returns `(False, str(e))`. -/
def basic_exception_handler (_ : Checker) (e : String) : Bool × String :=
  (false, e)

/-- `check_reduce(passed, result)`: `passed and result.get('passed')`. -/
def check_reduce {τ : Type} (passed : Bool) (result : CheckResult τ) : Bool :=
  passed && result.passed

/-- A value stored in `HealthCheck.functions` (custom sections, spec §9):
either a static (non-callable) value, or a zero-argument provider that
returns a value or raises. -/
inductive SectionValue where
  | staticVal (v : String)
  | provider (f : Unit → Except String String)

/-- The `HealthCheck` aggregator instance: its configuration and its cache.
Handlers are the formatter functions `(results, **custom_section) → body`;
`none` models a handler configured as Python `None`. -/
structure HealthCheck (τ : Type) where
  cache : List (Checker × CheckResult τ)
  success_status : Nat
  success_headers : List (String × String)
  success_handler : Option (List (CheckResult τ) → List (String × String) → String)
  success_ttl : τ
  failed_status : Nat
  failed_headers : List (String × String)
  failed_handler : Option (List (CheckResult τ) → List (String × String) → String)
  failed_ttl : τ
  error_timeout : τ
  exception_handler : Checker → String → Bool × String
  functions : List (String × SectionValue)

variable {τ : Type} [LinearOrder τ] [AddZeroClass τ]

/-- Embedding of `HealthCheck.run_check(checker)` run at start time `t`;
returns the result dict and the time when the call returns.

The `timeout` decorator is imported from `healthcheck/timeout.py`, which is
not part of the sources here.  Modelled from the spec: when a positive
timeout duration is configured and the deadline elapses before the probe
returns, the invocation is aborted after `error_timeout` seconds with a
timeout-signaling exception whose message is the configured
`'Timeout error!'`; like any probe exception it is caught and routed
through the configured exception adapter. -/
def HealthCheck.run_check (hc : HealthCheck τ) (env : Checker → Invocation τ)
    (c : Checker) (t : τ) : CheckResult τ × τ :=
  let inv := env c
  let timedOut : Bool :=
    decide (0 < hc.error_timeout) && decide (hc.error_timeout < inv.duration)
  let raw : Except String (Bool × String) :=
    if timedOut then Except.error "Timeout error!"
    else
      match inv.outcome with
      | ProbeOutcome.ok p o => Except.ok (p, o)
      | ProbeOutcome.exn m => Except.error m
  let elapsed : τ := if timedOut then hc.error_timeout else inv.duration
  let po : Bool × String :=
    match raw with
    | Except.ok r => r
    | Except.error m => hc.exception_handler c m
  let timestamp := t + elapsed
  let expires :=
    if po.1 then timestamp + hc.success_ttl else timestamp + hc.failed_ttl
  ({ checker := c.name, output := po.2, passed := po.1,
     timestamp := timestamp, expires := expires, response_time := elapsed },
   t + elapsed)

/-- Mutable state accumulated by the `for checker in filtered` loop of
`HealthCheck.run`: results so far, the cache, the current clock, and the
list of handles whose probe was actually invoked (ghost data used to state
cache-hit claims). -/
structure RunAcc (τ : Type) where
  results : List (CheckResult τ)
  cache : List (Checker × CheckResult τ)
  now : τ
  executed : List Checker
deriving Repr

/-- One iteration of `run`'s loop: cache hit when an entry exists and
`entry['expires'] >= time.time()`, otherwise `run_check` and overwrite. -/
def HealthCheck.runStep (hc : HealthCheck τ) (env : Checker → Invocation τ)
    (acc : RunAcc τ) (c : Checker) : RunAcc τ :=
  match assocGet acc.cache c with
  | some r =>
    if acc.now ≤ r.expires then
      { acc with results := acc.results ++ [r] }
    else
      let rt := hc.run_check env c acc.now
      { results := acc.results ++ [rt.1], cache := assocPut acc.cache c rt.1,
        now := rt.2, executed := acc.executed ++ [c] }
  | none =>
    let rt := hc.run_check env c acc.now
    { results := acc.results ++ [rt.1], cache := assocPut acc.cache c rt.1,
      now := rt.2, executed := acc.executed ++ [c] }

/-- The custom-section collection loop of `run`: call providers, pass static
values through, and swallow (`except Exception: pass`) a raising provider,
omitting its section. -/
def collect_custom_sections (fns : List (String × SectionValue)) :
    List (String × String) :=
  fns.filterMap fun p =>
    match p.2 with
    | SectionValue.staticVal v => some (p.1, v)
    | SectionValue.provider f =>
      match f () with
      | Except.ok v => some (p.1, v)
      | Except.error _ => none

/-- `HealthCheckMonitor.get(name)`: `cls.checkers.get(name)`. -/
def HealthCheckMonitor.get (reg : List (String × Checker)) (name : String) :
    Option Checker :=
  assocGet reg name

/-- `HealthCheckMonitor.get_checkers(name)`: all registered handles, or, for a
truthy `name`, the single matching handle (`filter(None, [cls.get(name)])`).
`none` models Python `None`; `some ""` is falsy in Python and also selects all. -/
def HealthCheckMonitor.get_checkers (reg : List (String × Checker))
    (name : Option String) : List Checker :=
  match name with
  | none => reg.map Prod.snd
  | some n =>
    if n = "" then reg.map Prod.snd
    else (HealthCheckMonitor.get reg n).toList

/-- `HealthCheckMonitor.register(checker)` for a `Checker` argument:
`cls.checkers[checker.name] = checker`. -/
def HealthCheckMonitor.register (reg : List (String × Checker)) (c : Checker) :
    List (String × Checker) :=
  assocPut reg c.name c

/-- `HealthCheckMonitor.unregister_all()`: `cls.checkers = {}`. -/
def HealthCheckMonitor.unregister_all (_ : List (String × Checker)) :
    List (String × Checker) :=
  []

/-- Everything observable about one `HealthCheck.run` call: the returned
`(message, status, headers)` triple, and the state it leaves behind
(`registry` is reported because the source's global registry is threaded
explicitly; `run` only reads it). -/
structure RunOutput (τ : Type) where
  message : String
  status : Nat
  headers : List (String × String)
  results : List (CheckResult τ)
  sections : List (String × String)
  passed : Bool
  cache : List (Checker × CheckResult τ)
  registry : List (String × Checker)
  endTime : τ
  executed : List Checker

/-- The `for checker in filtered` loop of `HealthCheck.run`: fold `runStep`
over the resolved handles starting from the aggregator's cache. -/
def HealthCheck.runAcc (hc : HealthCheck τ) (registry : List (String × Checker))
    (env : Checker → Invocation τ) (check : Option String) (now : τ) : RunAcc τ :=
  (HealthCheckMonitor.get_checkers registry check).foldl (hc.runStep env)
    ⟨[], hc.cache, now, []⟩

/-- Embedding of `HealthCheck.run(check=None)` started at time `now`. -/
def HealthCheck.run (hc : HealthCheck τ) (registry : List (String × Checker))
    (env : Checker → Invocation τ) (check : Option String) (now : τ) :
    RunOutput τ :=
  let acc := hc.runAcc registry env check now
  let custom_section := collect_custom_sections hc.functions
  let passed := acc.results.foldl check_reduce true
  if passed then
    { message :=
        match hc.success_handler with
        | some h => h acc.results custom_section
        | none => "OK",
      status := hc.success_status, headers := hc.success_headers,
      results := acc.results, sections := custom_section, passed := passed,
      cache := acc.cache, registry := registry, endTime := acc.now,
      executed := acc.executed }
  else
    { message :=
        match hc.failed_handler with
        | some h => h acc.results custom_section
        | none => "NOT OK",
      status := hc.failed_status, headers := hc.failed_headers,
      results := acc.results, sections := custom_section, passed := passed,
      cache := acc.cache, registry := registry, endTime := acc.now,
      executed := acc.executed }

/-- The `Checker` class seen at the decoration/call layer, for probes with
argument type `α` and result type `β`: the `_name` attribute and the
`_wrapped` attribute set by `decorate`.  (The registry side effect of
`decorate` is `HealthCheckMonitor.register`, modelled above on handles.) -/
structure CheckerDeco (α β : Type) where
  nameAttr : Option String
  wrapped : Option (α → β)

/-- `Checker._call(self, func, *args, **kwargs)`: `func(*args, **kwargs)`. -/
def CheckerDeco.callImpl {α β : Type} (_ : CheckerDeco α β) (func : α → β)
    (x : α) : β :=
  func x

/-- `Checker.decorate(self, function)`: infer `_name` from `function.__name__`
when unset, build the wrapper closing over `function`, store it in
`_wrapped`, and return it alongside the updated object. -/
def CheckerDeco.decorate {α β : Type} (self : CheckerDeco α β) (fname : String)
    (function : α → β) : CheckerDeco α β × (α → β) :=
  let self1 : CheckerDeco α β :=
    { self with nameAttr := some (self.nameAttr.getD fname) }
  let wrapper : α → β := fun x => self1.callImpl function x
  ({ self1 with wrapped := some wrapper }, wrapper)

/-- `Checker.call(self, *args, **kwargs)`: `self._wrapped(*args, **kwargs)`;
`none` models the `AttributeError` when `decorate` was never applied. -/
def CheckerDeco.call {α β : Type} (self : CheckerDeco α β) (x : α) : Option β :=
  self.wrapped.map fun w => w x

/-- `checker(f)` used directly on a callable: `Checker().decorate(f)`. -/
def checker_direct {α β : Type} (fname : String) (f : α → β) :
    CheckerDeco α β × (α → β) :=
  CheckerDeco.decorate ⟨none, none⟩ fname f

/-- `checker(name=n)(f)`: `Checker(name=n).decorate` applied to `f`. -/
def checker_with_name {α β : Type} (n : String) (fname : String) (f : α → β) :
    CheckerDeco α β × (α → β) :=
  CheckerDeco.decorate ⟨some n, none⟩ fname f

/-! Concrete instances (over `τ := ℤ`) used by witnesses and counterexamples. -/

/-- A `HealthCheck` built with the constructor defaults, except that both
formatters are configured as `None` so the branch bodies are the literal
`"OK"` / `"NOT OK"` strings. -/
def hcBase : HealthCheck ℤ :=
  { cache := []
    success_status := 200
    success_headers := [("Content-Type", "application/json")]
    success_handler := none
    success_ttl := 27
    failed_status := 500
    failed_headers := [("Content-Type", "application/json")]
    failed_handler := none
    failed_ttl := 9
    error_timeout := 0
    exception_handler := basic_exception_handler
    functions := [] }

/-- A handle for a passing probe. -/
def cOk : Checker := ⟨0, "works"⟩

/-- A handle for a probe raising `ValueError("boom")`. -/
def cBoom : Checker := ⟨1, "boom_check"⟩

/-- A handle for a failing probe. -/
def cFail : Checker := ⟨2, "fail_check"⟩

/-- Environment: `cBoom` raises `"boom"`, `cFail` returns `(False, "bad")`,
everything else returns `(True, "It works!")` taking 1 second. -/
def envDemo : Checker → Invocation ℤ := fun c =>
  if c = cBoom then ⟨ProbeOutcome.exn "boom", 0⟩
  else if c = cFail then ⟨ProbeOutcome.ok false "bad", 0⟩
  else ⟨ProbeOutcome.ok true "It works!", 1⟩

/-- The failing-probe configuration with `failed_ttl = 0`. -/
def hcFail0 : HealthCheck ℤ := { hcBase with failed_ttl := 0 }

/-- Registry holding only the failing probe. -/
def regFail : List (String × Checker) := [("fail_check", cFail)]

/-- First run of the `failed_ttl = 0` scenario, at time 0. -/
def runFail1 : RunOutput ℤ := hcFail0.run regFail envDemo none 0

/-- Second run of the `failed_ttl = 0` scenario, re-using the cache left by
the first run, with the clock still reading 0 (Python `time.time()` has
finite resolution and may repeat across consecutive calls). -/
def runFail2 : RunOutput ℤ :=
  { hcFail0 with cache := runFail1.cache }.run regFail envDemo none 0

/-- Third run of the scenario, at a strictly later time. -/
def runFail3 : RunOutput ℤ :=
  { hcFail0 with cache := runFail1.cache }.run regFail envDemo none 1

/-- Registry holding only the passing probe. -/
def regOk : List (String × Checker) := [("works", cOk)]

/-- First run of the `success_ttl = 27` scenario, at time 0. -/
def runOk1 : RunOutput ℤ := hcBase.run regOk envDemo none 0

/-- Second run of the `success_ttl = 27` scenario, 20 seconds later, re-using
the cache left by the first run. -/
def runOk2 : RunOutput ℤ :=
  { hcBase with cache := runOk1.cache }.run regOk envDemo none 20

/-- Registry holding only the raising probe. -/
def regBoom : List (String × Checker) := [("boom_check", cBoom)]

/-- Run of the `ValueError("boom")` scenario, at time 0. -/
def runBoom : RunOutput ℤ := hcBase.run regBoom envDemo none 0

/-- The base configuration with a 1-second probe timeout. -/
def hcTimeout : HealthCheck ℤ := { hcBase with error_timeout := 1 }

/-- Environment where every probe would pass after 60 seconds. -/
def envSlow : Checker → Invocation ℤ := fun _ =>
  ⟨ProbeOutcome.ok true "It works!", 60⟩

/-- A custom-section provider returning a value. -/
def provRegion : Unit → Except String String := fun _ => Except.ok "eu-1"

/-- A custom-section provider that raises. -/
def provBroken : Unit → Except String String := fun _ => Except.error "oops"

/-- The base configuration with one static section, one well-behaved provider
and one raising provider. -/
def hcSections : HealthCheck ℤ :=
  { hcBase with functions :=
      [("version", SectionValue.staticVal "1.0"),
       ("region", SectionValue.provider provRegion),
       ("broken", SectionValue.provider provBroken)] }

/-- Run of the custom-sections scenario: no probes registered. -/
def runSections : RunOutput ℤ := hcSections.run [] envDemo none 0

/-- The cached result the passing-probe scenario leaves behind: probe ran at
time 0 for 1 second, so `timestamp = 1`, `expires = 1 + 27 = 28`. -/
def rOkW : CheckResult ℤ :=
  { checker := "works", output := "It works!", passed := true,
    timestamp := 1, expires := 28, response_time := 1 }

/-- Loop state holding a still-fresh cached result for `cOk` at time 20. -/
def accOkW : RunAcc ℤ := ⟨[], [(cOk, rOkW)], 20, []⟩

/-- The cached result the failing-probe scenario leaves behind with
`failed_ttl = 0`: `expires = timestamp = 0`. -/
def rFailW : CheckResult ℤ :=
  { checker := "fail_check", output := "bad", passed := false,
    timestamp := 0, expires := 0, response_time := 0 }

/-- Loop state holding an expired cached failure for `cFail` at time 1. -/
def accFailW : RunAcc ℤ := ⟨[], [(cFail, rFailW)], 1, []⟩

/-! Helper lemmas. -/

set_option linter.unusedSectionVars false

theorem foldl_check_reduce_eq_all (l : List (CheckResult τ)) (b : Bool) :
    l.foldl check_reduce b = (b && l.all fun r => r.passed) := by
  induction l generalizing b with
  | nil => simp
  | cons x xs ih => simp [check_reduce, ih, Bool.and_assoc]

theorem assocGet_assocPut_self {κ ν : Type} [DecidableEq κ]
    (m : List (κ × ν)) (k : κ) (v : ν) :
    assocGet (assocPut m k v) k = some v := by
  induction m with
  | nil => simp [assocGet, assocPut]
  | cons p rest ih =>
    by_cases h : p.1 = k
    · simp [assocGet, assocPut, h]
    · simp [assocGet, assocPut, h, ih]

theorem assocGet_assocPut_ne {κ ν : Type} [DecidableEq κ]
    (m : List (κ × ν)) (k k' : κ) (v : ν) (h : k' ≠ k) :
    assocGet (assocPut m k v) k' = assocGet m k' := by
  induction m with
  | nil => simp [assocGet, assocPut, Ne.symm h]
  | cons p rest ih =>
    by_cases hp : p.1 = k
    · simp [assocGet, assocPut, hp, Ne.symm h]
    · simp [assocGet, assocPut, hp, ih]

theorem nodup_keys_mem_unique {κ ν : Type} (l : List (κ × ν))
    (h : (l.map Prod.fst).Nodup) (k : κ) (v w : ν)
    (hv : (k, v) ∈ l) (hw : (k, w) ∈ l) : v = w := by
  induction l with
  | nil => cases hv
  | cons p rest ih =>
    rw [List.map_cons, List.nodup_cons] at h
    obtain ⟨hp, hrest⟩ := h
    rcases List.mem_cons.mp hv with hv1 | hv1
    · rcases List.mem_cons.mp hw with hw1 | hw1
      · exact (Prod.ext_iff.mp (hv1.trans hw1.symm)).2
      · exfalso
        have hk : k = p.1 := congrArg Prod.fst hv1
        apply hp
        rw [← hk]
        exact List.mem_map.mpr ⟨(k, w), hw1, rfl⟩
    · rcases List.mem_cons.mp hw with hw1 | hw1
      · exfalso
        have hk : k = p.1 := congrArg Prod.fst hw1
        apply hp
        rw [← hk]
        exact List.mem_map.mpr ⟨(k, v), hv1, rfl⟩
      · exact ih hrest hv1 hw1

theorem run_results_eq (hc : HealthCheck τ) (registry : List (String × Checker))
    (env : Checker → Invocation τ) (check : Option String) (now : τ) :
    (hc.run registry env check now).results =
      (hc.runAcc registry env check now).results := by
  simp only [HealthCheck.run]
  split <;> rfl

theorem run_passed_eq (hc : HealthCheck τ) (registry : List (String × Checker))
    (env : Checker → Invocation τ) (check : Option String) (now : τ) :
    (hc.run registry env check now).passed =
      (hc.runAcc registry env check now).results.foldl check_reduce true := by
  simp only [HealthCheck.run]
  split <;> rfl

theorem run_sections_eq (hc : HealthCheck τ) (registry : List (String × Checker))
    (env : Checker → Invocation τ) (check : Option String) (now : τ) :
    (hc.run registry env check now).sections =
      collect_custom_sections hc.functions := by
  simp only [HealthCheck.run]
  split <;> rfl

theorem run_cache_eq (hc : HealthCheck τ) (registry : List (String × Checker))
    (env : Checker → Invocation τ) (check : Option String) (now : τ) :
    (hc.run registry env check now).cache =
      (hc.runAcc registry env check now).cache := by
  simp only [HealthCheck.run]
  split <;> rfl

theorem run_registry_eq (hc : HealthCheck τ) (registry : List (String × Checker))
    (env : Checker → Invocation τ) (check : Option String) (now : τ) :
    (hc.run registry env check now).registry = registry := by
  simp only [HealthCheck.run]
  split <;> rfl

theorem run_executed_eq (hc : HealthCheck τ) (registry : List (String × Checker))
    (env : Checker → Invocation τ) (check : Option String) (now : τ) :
    (hc.run registry env check now).executed =
      (hc.runAcc registry env check now).executed := by
  simp only [HealthCheck.run]
  split <;> rfl

theorem run_triple_of_true (hc : HealthCheck τ) (registry : List (String × Checker))
    (env : Checker → Invocation τ) (check : Option String) (now : τ)
    (h : (hc.runAcc registry env check now).results.foldl check_reduce true = true) :
    (hc.run registry env check now).message =
      (match hc.success_handler with
       | some f => f (hc.runAcc registry env check now).results
           (collect_custom_sections hc.functions)
       | none => "OK")
    ∧ (hc.run registry env check now).status = hc.success_status
    ∧ (hc.run registry env check now).headers = hc.success_headers := by
  simp only [HealthCheck.run]
  rw [if_pos h]
  exact ⟨rfl, rfl, rfl⟩

theorem run_triple_of_false (hc : HealthCheck τ) (registry : List (String × Checker))
    (env : Checker → Invocation τ) (check : Option String) (now : τ)
    (h : (hc.runAcc registry env check now).results.foldl check_reduce true = false) :
    (hc.run registry env check now).message =
      (match hc.failed_handler with
       | some f => f (hc.runAcc registry env check now).results
           (collect_custom_sections hc.functions)
       | none => "NOT OK")
    ∧ (hc.run registry env check now).status = hc.failed_status
    ∧ (hc.run registry env check now).headers = hc.failed_headers := by
  simp only [HealthCheck.run]
  rw [if_neg (by simp [h])]
  exact ⟨rfl, rfl, rfl⟩

theorem runStep_of_hit (hc : HealthCheck τ) (env : Checker → Invocation τ)
    (acc : RunAcc τ) (c : Checker) (r : CheckResult τ)
    (hr : assocGet acc.cache c = some r) (hfresh : acc.now ≤ r.expires) :
    hc.runStep env acc c = { acc with results := acc.results ++ [r] } := by
  unfold HealthCheck.runStep
  rw [hr]
  simp [hfresh]

theorem runStep_of_miss (hc : HealthCheck τ) (env : Checker → Invocation τ)
    (acc : RunAcc τ) (c : Checker)
    (hmiss : assocGet acc.cache c = none ∨
      ∃ r, assocGet acc.cache c = some r ∧ r.expires < acc.now) :
    hc.runStep env acc c =
      { results := acc.results ++ [(hc.run_check env c acc.now).1],
        cache := assocPut acc.cache c (hc.run_check env c acc.now).1,
        now := (hc.run_check env c acc.now).2,
        executed := acc.executed ++ [c] } := by
  unfold HealthCheck.runStep
  rcases hmiss with h | ⟨r, hr, hlt⟩
  · rw [h]
  · rw [hr]
    simp [not_le.mpr hlt]

theorem runStep_executed_extend (hc : HealthCheck τ) (env : Checker → Invocation τ)
    (acc : RunAcc τ) (c : Checker) :
    (hc.runStep env acc c).executed = acc.executed ∨
    (hc.runStep env acc c).executed = acc.executed ++ [c] := by
  unfold HealthCheck.runStep
  cases h : assocGet acc.cache c with
  | none => right; rfl
  | some r =>
    by_cases hle : acc.now ≤ r.expires
    · left; simp [hle]
    · right; simp [hle]

theorem foldl_runStep_executed_mono (hc : HealthCheck τ)
    (env : Checker → Invocation τ) (l : List Checker) (acc : RunAcc τ) :
    ∃ e, (l.foldl (hc.runStep env) acc).executed = acc.executed ++ e := by
  induction l generalizing acc with
  | nil => exact ⟨[], by simp⟩
  | cons x xs ih =>
    obtain ⟨e, he⟩ := ih (hc.runStep env acc x)
    rw [List.foldl_cons]
    rcases runStep_executed_extend hc env acc x with h | h
    · exact ⟨e, by rw [he, h]⟩
    · exact ⟨[x] ++ e, by rw [he, h, List.append_assoc]⟩

theorem runStep_cache_mono (hc : HealthCheck τ) (env : Checker → Invocation τ)
    (acc : RunAcc τ) (c c' : Checker) (r' : CheckResult τ)
    (h : assocGet acc.cache c' = some r') :
    ∃ r'', assocGet (hc.runStep env acc c).cache c' = some r'' := by
  unfold HealthCheck.runStep
  cases hg : assocGet acc.cache c with
  | none =>
    by_cases hc' : c' = c
    · exact ⟨(hc.run_check env c acc.now).1, by simp [hc', assocGet_assocPut_self]⟩
    · exact ⟨r', by simp [assocGet_assocPut_ne _ _ _ _ hc', h]⟩
  | some r =>
    by_cases hle : acc.now ≤ r.expires
    · exact ⟨r', by simp [hle, h]⟩
    · by_cases hc' : c' = c
      · exact ⟨(hc.run_check env c acc.now).1,
          by simp [hle, hc', assocGet_assocPut_self]⟩
      · exact ⟨r', by simp [hle, assocGet_assocPut_ne _ _ _ _ hc', h]⟩

theorem runStep_cache_untouched (hc : HealthCheck τ) (env : Checker → Invocation τ)
    (acc : RunAcc τ) (c c' : Checker) (r' : CheckResult τ)
    (h : assocGet acc.cache c' = some r')
    (hne : c' ∉ (hc.runStep env acc c).executed) :
    assocGet (hc.runStep env acc c).cache c' = some r' := by
  unfold HealthCheck.runStep
  cases hg : assocGet acc.cache c with
  | none =>
    by_cases hc' : c' = c
    · exfalso
      apply hne
      unfold HealthCheck.runStep
      rw [hg]
      simp [hc']
    · simp [assocGet_assocPut_ne _ _ _ _ hc', h]
  | some r =>
    by_cases hle : acc.now ≤ r.expires
    · simp [hle, h]
    · by_cases hc' : c' = c
      · exfalso
        apply hne
        unfold HealthCheck.runStep
        rw [hg]
        simp [hle, hc']
      · simp [hle, assocGet_assocPut_ne _ _ _ _ hc', h]

theorem runStep_cache_source (hc : HealthCheck τ) (env : Checker → Invocation τ)
    (acc : RunAcc τ) (c c' : Checker) (r' : CheckResult τ)
    (h : assocGet (hc.runStep env acc c).cache c' = some r') :
    assocGet acc.cache c' = some r' ∨
      (c' = c ∧ c' ∈ (hc.runStep env acc c).executed) := by
  revert h
  unfold HealthCheck.runStep
  cases hg : assocGet acc.cache c with
  | none =>
    by_cases hc' : c' = c
    · intro _; right; exact ⟨hc', by simp [hc']⟩
    · intro h; left
      rw [← assocGet_assocPut_ne acc.cache c c' (hc.run_check env c acc.now).1 hc']
      exact h
  | some r =>
    by_cases hle : acc.now ≤ r.expires
    · intro h; left; simpa [hle] using h
    · by_cases hc' : c' = c
      · intro _; right; exact ⟨hc', by simp [hle, hc']⟩
      · intro h; left
        rw [← assocGet_assocPut_ne acc.cache c c' (hc.run_check env c acc.now).1 hc']
        simpa [hle] using h

theorem foldl_runStep_cache_mono (hc : HealthCheck τ)
    (env : Checker → Invocation τ) (l : List Checker) (acc : RunAcc τ)
    (c : Checker) (r : CheckResult τ) (h : assocGet acc.cache c = some r) :
    ∃ r', assocGet (l.foldl (hc.runStep env) acc).cache c = some r' := by
  induction l generalizing acc r with
  | nil => exact ⟨r, h⟩
  | cons x xs ih =>
    rw [List.foldl_cons]
    obtain ⟨r'', h''⟩ := runStep_cache_mono hc env acc x c r h
    exact ih (hc.runStep env acc x) r'' h''

theorem foldl_runStep_cache_untouched (hc : HealthCheck τ)
    (env : Checker → Invocation τ) (l : List Checker) (acc : RunAcc τ)
    (c : Checker) (r : CheckResult τ) (h : assocGet acc.cache c = some r)
    (hne : c ∉ (l.foldl (hc.runStep env) acc).executed) :
    assocGet (l.foldl (hc.runStep env) acc).cache c = some r := by
  induction l generalizing acc r with
  | nil => exact h
  | cons x xs ih =>
    rw [List.foldl_cons] at hne ⊢
    have hstep : c ∉ (hc.runStep env acc x).executed := by
      intro hmem
      obtain ⟨e, he⟩ := foldl_runStep_executed_mono hc env xs (hc.runStep env acc x)
      exact hne (by rw [he]; exact List.mem_append_left _ hmem)
    exact ih (hc.runStep env acc x) r
      (runStep_cache_untouched hc env acc x c r h hstep) hne

theorem foldl_runStep_cache_source (hc : HealthCheck τ)
    (env : Checker → Invocation τ) (l : List Checker) (acc : RunAcc τ)
    (c : Checker) (r' : CheckResult τ)
    (h : assocGet (l.foldl (hc.runStep env) acc).cache c = some r') :
    assocGet acc.cache c = some r' ∨
      c ∈ (l.foldl (hc.runStep env) acc).executed := by
  induction l generalizing acc with
  | nil => exact Or.inl h
  | cons x xs ih =>
    rw [List.foldl_cons] at h ⊢
    rcases ih (hc.runStep env acc x) h with h1 | h1
    · rcases runStep_cache_source hc env acc x c r' h1 with h2 | ⟨_, h2⟩
      · exact Or.inl h2
      · right
        obtain ⟨e, he⟩ := foldl_runStep_executed_mono hc env xs (hc.runStep env acc x)
        rw [he]
        exact List.mem_append_left _ h2
    · exact Or.inr h1

theorem run_check_expires_eq (hc : HealthCheck τ) (env : Checker → Invocation τ)
    (c : Checker) (t : τ) :
    (hc.run_check env c t).1.expires =
      (hc.run_check env c t).1.timestamp +
        (if (hc.run_check env c t).1.passed then hc.success_ttl
         else hc.failed_ttl) := by
  simp only [HealthCheck.run_check]
  split <;> split <;> simp_all

/-- C5: every `CheckResult` built by `run_check` satisfies
`expires = timestamp + (success_ttl if passed else failed_ttl)`, where
`timestamp` is the result's own timestamp field. -/
theorem check_result_expires_invariant (hc : HealthCheck τ)
    (env : Checker → Invocation τ) (c : Checker) (t : τ) :
    (hc.run_check env c t).1.expires =
      (hc.run_check env c t).1.timestamp +
        (if (hc.run_check env c t).1.passed then hc.success_ttl
         else hc.failed_ttl) :=
  run_check_expires_eq hc env c t

/-- C4: when a positive `error_timeout` is configured and the probe's
invocation would exceed the deadline, `run_check` (with the default
exception adapter, as in the constructor defaults) produces the synthetic
result `passed = False`, `output = "Timeout error!"` instead of the probe's
own return value, after spending `error_timeout` on the invocation.
The `timeout` decorator itself is modelled from the spec (its module is not
among the sources). -/
theorem run_check_timeout_result (hc : HealthCheck τ)
    (env : Checker → Invocation τ) (c : Checker) (t : τ)
    (hpos : 0 < hc.error_timeout)
    (hslow : hc.error_timeout < (env c).duration)
    (hdef : hc.exception_handler = basic_exception_handler) :
    (hc.run_check env c t).1.passed = false
  ∧ (hc.run_check env c t).1.output = "Timeout error!"
  ∧ (hc.run_check env c t).1.response_time = hc.error_timeout := by
  simp only [HealthCheck.run_check]
  simp [hpos, hslow, hdef, basic_exception_handler]

theorem run_check_timeout_result_witness :
    (hcTimeout.run_check envSlow cOk 0).1.passed = false
  ∧ (hcTimeout.run_check envSlow cOk 0).1.output = "Timeout error!"
  ∧ (hcTimeout.run_check envSlow cOk 0).1.response_time
      = hcTimeout.error_timeout :=
  run_check_timeout_result hcTimeout envSlow cOk 0 (by decide) (by decide) rfl

/-- C2: a probe whose invocation raises does not make `run` raise: the
exception is caught in `run_check` and converted through the configured
exception adapter into the result's `(passed, output)` pair; under the
default adapter the message is passed through with `passed = False`, and in
the concrete `ValueError("boom")` scenario `run` returns the failure
branch. -/
theorem run_exception_contained (hc : HealthCheck τ)
    (env : Checker → Invocation τ) (c : Checker) (m : String) (t : τ)
    (henv : (env c).outcome = ProbeOutcome.exn m)
    (hnt : ¬(0 < hc.error_timeout ∧ hc.error_timeout < (env c).duration)) :
    (((hc.run_check env c t).1.passed, (hc.run_check env c t).1.output)
        = hc.exception_handler c m)
  ∧ (hc.exception_handler = basic_exception_handler →
      (hc.run_check env c t).1.passed = false
        ∧ (hc.run_check env c t).1.output = m)
  ∧ runBoom.results.map (fun r => (r.passed, r.output)) = [(false, "boom")]
  ∧ runBoom.passed = false
  ∧ (runBoom.message, runBoom.status, runBoom.headers)
      = ("NOT OK", 500, [("Content-Type", "application/json")]) := by
  have ht : (decide (0 < hc.error_timeout) &&
      decide (hc.error_timeout < (env c).duration)) = false := by
    rcases not_and_or.mp hnt with h | h <;> simp [h]
  refine ⟨?_, ?_, by decide, by decide, by decide⟩
  · simp only [HealthCheck.run_check]
    simp [ht, henv]
  · intro hd
    simp only [HealthCheck.run_check]
    simp [ht, henv, hd, basic_exception_handler]

theorem run_exception_contained_witness :
    ((hcBase.run_check envDemo cBoom 0).1.passed,
        (hcBase.run_check envDemo cBoom 0).1.output)
      = hcBase.exception_handler cBoom "boom" :=
  (run_exception_contained hcBase envDemo cBoom "boom" 0
    (by decide) (by decide)).1

/-- C3: inside one `run` call, a handle is served from the cache (probe not
invoked, state otherwise unchanged) exactly when a cache entry exists for it
and its expiry is at or after the clock when the loop reaches it; otherwise
the probe is executed and the fresh result overwrites the entry.  In the
concrete `success_ttl = 27` scenario, the passing probe invoked again 20
seconds later is executed only on the first run. -/
theorem run_cache_hit_iff (hc : HealthCheck τ) (env : Checker → Invocation τ)
    (acc : RunAcc τ) (c : Checker) :
    (∀ r, assocGet acc.cache c = some r → acc.now ≤ r.expires →
      hc.runStep env acc c = { acc with results := acc.results ++ [r] })
  ∧ ((assocGet acc.cache c = none ∨
      ∃ r, assocGet acc.cache c = some r ∧ r.expires < acc.now) →
      hc.runStep env acc c =
        { results := acc.results ++ [(hc.run_check env c acc.now).1],
          cache := assocPut acc.cache c (hc.run_check env c acc.now).1,
          now := (hc.run_check env c acc.now).2,
          executed := acc.executed ++ [c] })
  ∧ runOk1.executed = [cOk]
  ∧ runOk2.executed = []
  ∧ runOk2.results = runOk1.results := by
  refine ⟨?_, ?_, by decide, by decide, by decide⟩
  · intro r hr hfresh
    exact runStep_of_hit hc env acc c r hr hfresh
  · intro hmiss
    exact runStep_of_miss hc env acc c hmiss

theorem run_cache_hit_iff_witness :
    hcBase.runStep envDemo accOkW cOk
      = { accOkW with results := accOkW.results ++ [rOkW] } :=
  (run_cache_hit_iff hcBase envDemo accOkW cOk).1 rOkW (by decide) (by decide)

/-- C1: a `run` call returns the success triple (body from `success_handler`,
or the literal `"OK"` when none is configured, with `success_status` and
`success_headers`) exactly when the `check_reduce` fold — the logical AND of
the collected results' `passed` fields, `true` on an empty result list — is
true, and the failure triple (`failed_handler` or `"NOT OK"`,
`failed_status`, `failed_headers`) otherwise; a selector naming no
registered handle yields an empty result list and the success branch. -/
theorem run_branch_iff_reduce (hc : HealthCheck τ)
    (registry : List (String × Checker)) (env : Checker → Invocation τ)
    (check : Option String) (now : τ) (o : RunOutput τ)
    (ho : o = hc.run registry env check now) :
    o.passed = o.results.foldl check_reduce true
  ∧ o.passed = o.results.all (fun r => r.passed)
  ∧ (o.results = [] → o.passed = true)
  ∧ (o.passed = true →
      o.message = (match hc.success_handler with
        | some f => f o.results o.sections
        | none => "OK")
      ∧ o.status = hc.success_status ∧ o.headers = hc.success_headers)
  ∧ (o.passed = false →
      o.message = (match hc.failed_handler with
        | some f => f o.results o.sections
        | none => "NOT OK")
      ∧ o.status = hc.failed_status ∧ o.headers = hc.failed_headers)
  ∧ (∀ n, check = some n → n ≠ "" → assocGet registry n = none →
      o.results = [] ∧ o.passed = true) := by
  subst ho
  have hres := run_results_eq hc registry env check now
  have hpass := run_passed_eq hc registry env check now
  have hsec := run_sections_eq hc registry env check now
  refine ⟨?_, ?_, ?_, ?_, ?_, ?_⟩
  · rw [hpass, hres]
  · rw [hpass, hres, foldl_check_reduce_eq_all, Bool.true_and]
  · intro hempty
    rw [hres] at hempty
    rw [hpass, hempty]
    rfl
  · intro hp
    rw [hpass] at hp
    obtain ⟨hm, hs, hh⟩ := run_triple_of_true hc registry env check now hp
    refine ⟨?_, hs, hh⟩
    rw [hm, hres, hsec]
  · intro hp
    rw [hpass] at hp
    obtain ⟨hm, hs, hh⟩ := run_triple_of_false hc registry env check now hp
    refine ⟨?_, hs, hh⟩
    rw [hm, hres, hsec]
  · intro n hn hne hreg
    have hacc : hc.runAcc registry env check now = ⟨[], hc.cache, now, []⟩ := by
      simp only [HealthCheck.runAcc, HealthCheckMonitor.get_checkers,
        HealthCheckMonitor.get, hn]
      rw [if_neg hne, hreg]
      rfl
    constructor
    · rw [hres, hacc]
    · rw [hpass, hacc]
      rfl

theorem run_branch_iff_reduce_witness :
    runOk1.message = "OK" ∧ runOk1.status = 200
  ∧ runOk1.headers = [("Content-Type", "application/json")] := by
  have h :=
    (run_branch_iff_reduce hcBase regOk envDemo none 0 runOk1 rfl).2.2.2.1
      (by decide)
  exact ⟨h.1, h.2.1, h.2.2⟩

/-- C6 counterexample: with `failed_ttl = 0` a failing probe's result CAN be
served from the cache.  The probe fails at time 0 (`expires = timestamp = 0`);
a second `run` whose cache check also reads time 0 satisfies
`expires >= now`, reuses the cached failure, and does not re-invoke the
probe. -/
theorem failed_ttl_zero_cached_failure_counterexample :
    runFail1.executed = [cFail]
  ∧ runFail1.results.map (fun r => r.passed) = [false]
  ∧ runFail2.executed = []
  ∧ runFail2.results = runFail1.results := by decide

/-- C6 (amended): with `failed_ttl = 0`, a failing result expires exactly at
its own timestamp, so the probe is re-invoked by every later `run` whose
cache check happens strictly after that timestamp (and, as the
counterexample shows, a check at exactly the timestamp still reuses the
cached failure).  Concretely, the third run of the scenario, at time 1,
re-invokes the probe. -/
theorem failed_ttl_zero_reinvocation (hc : HealthCheck τ)
    (env : Checker → Invocation τ) (acc : RunAcc τ) (c : Checker)
    (r : CheckResult τ) (t : τ) :
    (hc.failed_ttl = 0 → (hc.run_check env c t).1.passed = false →
      (hc.run_check env c t).1.expires = (hc.run_check env c t).1.timestamp)
  ∧ (assocGet acc.cache c = some r → r.expires < acc.now →
      (hc.runStep env acc c).executed = acc.executed ++ [c])
  ∧ runFail3.executed = [cFail] := by
  refine ⟨?_, ?_, by decide⟩
  · intro httl hfail
    have h := run_check_expires_eq hc env c t
    rw [hfail, if_neg (by simp), httl, add_zero] at h
    exact h
  · intro hr hexp
    rw [runStep_of_miss hc env acc c (Or.inr ⟨r, hr, hexp⟩)]

theorem failed_ttl_zero_reinvocation_witness :
    ((hcFail0.run_check envDemo cFail 0).1.expires
      = (hcFail0.run_check envDemo cFail 0).1.timestamp)
  ∧ (hcFail0.runStep envDemo accFailW cFail).executed
      = accFailW.executed ++ [cFail] := by
  have h := failed_ttl_zero_reinvocation hcFail0 envDemo accFailW cFail rFailW 0
  exact ⟨h.1 rfl (by decide), h.2.1 (by decide) (by decide)⟩

/-- C7: during `run`, a custom section whose value is a provider is called
with no arguments and its return value used; a static value is passed
through unchanged; and a section whose provider raises is entirely absent
from the collected sections (the exception is swallowed). -/
theorem run_custom_sections_policy (hc : HealthCheck τ)
    (registry : List (String × Checker)) (env : Checker → Invocation τ)
    (check : Option String) (now : τ) (o : RunOutput τ)
    (ho : o = hc.run registry env check now) :
    o.sections = collect_custom_sections hc.functions
  ∧ (∀ n v, (n, SectionValue.staticVal v) ∈ hc.functions →
      (n, v) ∈ o.sections)
  ∧ (∀ n f v, (n, SectionValue.provider f) ∈ hc.functions →
      f () = Except.ok v → (n, v) ∈ o.sections)
  ∧ ((hc.functions.map Prod.fst).Nodup →
      ∀ n f m, (n, SectionValue.provider f) ∈ hc.functions →
        f () = Except.error m → ∀ q ∈ o.sections, q.1 ≠ n) := by
  subst ho
  have hsec := run_sections_eq hc registry env check now
  refine ⟨hsec, ?_, ?_, ?_⟩
  · intro n v hmem
    rw [hsec]
    simp only [collect_custom_sections]
    exact List.mem_filterMap.mpr ⟨(n, SectionValue.staticVal v), hmem, rfl⟩
  · intro n f v hmem hf
    rw [hsec]
    simp only [collect_custom_sections]
    refine List.mem_filterMap.mpr ⟨(n, SectionValue.provider f), hmem, ?_⟩
    simp [hf]
  · intro hnodup n f m hmem hf q hq hqn
    rw [hsec] at hq
    simp only [collect_custom_sections] at hq
    obtain ⟨⟨pn, ps⟩, hp, hpe⟩ := List.mem_filterMap.mp hq
    have hpn : pn = n := by
      cases ps with
      | staticVal v =>
        simp only [] at hpe
        injection hpe with hpe'
        rw [← hqn, ← hpe']
      | provider g =>
        simp only [] at hpe
        cases hg : g () with
        | ok v =>
          rw [hg] at hpe
          injection hpe with hpe'
          rw [← hqn, ← hpe']
        | error e =>
          rw [hg] at hpe
          cases hpe
    subst hpn
    have hps : ps = SectionValue.provider f :=
      nodup_keys_mem_unique hc.functions hnodup pn ps (SectionValue.provider f)
        hp hmem
    subst hps
    simp only [] at hpe
    rw [hf] at hpe
    cases hpe

theorem run_custom_sections_policy_witness :
    ("version", "1.0") ∈ runSections.sections
  ∧ ("region", "eu-1") ∈ runSections.sections
  ∧ (∀ q ∈ runSections.sections, q.1 ≠ "broken") := by
  have h := run_custom_sections_policy hcSections [] envDemo none 0
    runSections rfl
  refine ⟨?_, ?_, ?_⟩
  · exact h.2.1 "version" "1.0" (by simp [hcSections, hcBase])
  · exact h.2.2.1 "region" provRegion "eu-1" (by simp [hcSections, hcBase]) rfl
  · exact h.2.2.2 (by simp [hcSections, hcBase]) "broken" provBroken "oops"
      (by simp [hcSections, hcBase]) rfl

/-- C8: a `run` call never removes a cache entry and never writes the
registry: the registry it leaves behind is the one it was given, every
handle cached before is still cached afterwards, an entry whose probe was
not executed during the call is byte-for-byte unchanged, and any entry
present afterwards either was already there with the same result or belongs
to a handle executed during the call. -/
theorem run_frame_properties (hc : HealthCheck τ)
    (registry : List (String × Checker)) (env : Checker → Invocation τ)
    (check : Option String) (now : τ) (o : RunOutput τ)
    (ho : o = hc.run registry env check now) :
    o.registry = registry
  ∧ (∀ c r, assocGet hc.cache c = some r →
      ∃ r', assocGet o.cache c = some r')
  ∧ (∀ c r, assocGet hc.cache c = some r → c ∉ o.executed →
      assocGet o.cache c = some r)
  ∧ (∀ c r', assocGet o.cache c = some r' →
      assocGet hc.cache c = some r' ∨ c ∈ o.executed) := by
  subst ho
  have hcache := run_cache_eq hc registry env check now
  have hexec := run_executed_eq hc registry env check now
  refine ⟨run_registry_eq hc registry env check now, ?_, ?_, ?_⟩
  · intro c r h
    rw [hcache]
    simp only [HealthCheck.runAcc]
    exact foldl_runStep_cache_mono hc env _ ⟨[], hc.cache, now, []⟩ c r h
  · intro c r h hne
    rw [hcache]
    rw [hexec] at hne
    simp only [HealthCheck.runAcc] at hne ⊢
    exact foldl_runStep_cache_untouched hc env _ ⟨[], hc.cache, now, []⟩ c r h hne
  · intro c r' h
    rw [hcache] at h
    rw [hexec]
    simp only [HealthCheck.runAcc] at h ⊢
    exact foldl_runStep_cache_source hc env _ ⟨[], hc.cache, now, []⟩ c r' h

theorem run_frame_properties_witness :
    assocGet runOk2.cache cOk = some rOkW :=
  (run_frame_properties { hcBase with cache := runOk1.cache } regOk envDemo
      none 20 runOk2 rfl).2.2.1 cOk rOkW (by decide) (by decide)

/-- C10: the wrapper built by registering a probe function — through
`checker(f)`, `checker(name=...)` applied to `f`, or `Checker.decorate` —
forwards its arguments to the probe unchanged and returns exactly the
probe's result, and calling the registered handle goes through the same
wrapper. -/
theorem wrapper_forwards_to_probe {α β : Type} (f : α → β) (x : α)
    (fname n : String) (self : CheckerDeco α β) :
    (checker_direct fname f).2 x = f x
  ∧ (checker_with_name n fname f).2 x = f x
  ∧ (self.decorate fname f).2 x = f x
  ∧ (self.decorate fname f).1.call x = some (f x) :=
  ⟨rfl, rfl, rfl, rfl⟩
